import Mathlib

/-!
Shallow embedding of the yamcrs visit-counter service (src/src/main.rs):
the counter store operations (`increment`, the `set_count` write), the
theme asset loader (`mime_for`, `load_digit`, `load_themes`) and the
renderer (`render_svg`), together with the request handlers `get_image`
and `set_count`.

Rust `HashMap`s are embedded as association lists with first-match lookup
(`alGet`) and upsert (`alInsert`); the SQLite table `tb_count`
(name UNIQUE, num INTEGER) is an association list from names to `Int`.
Fallible I/O is made explicit: file system entries carry `Option` fields
(`none` = the corresponding OS call fails) and the database operations take
boolean success flags (the Rust code discards the write error with `.ok()`
and maps a read error to `0` via `unwrap_or(0)`).
-/

namespace Yamcrs

/-- First-match lookup in an association list; embeds `HashMap::get`. -/
def alGet {α β : Type} [DecidableEq α] : List (α × β) → α → Option β
  | [], _ => none
  | (k, v) :: rest, a => if k = a then some v else alGet rest a

/-- Upsert in an association list; embeds `HashMap::insert` (overwrite the
existing binding, otherwise append a new one). -/
def alInsert {α β : Type} [DecidableEq α] (m : List (α × β)) (a : α) (b : β) :
    List (α × β) :=
  if (alGet m a).isSome then
    m.map (fun p => if p.1 = a then (a, b) else p)
  else
    m ++ [(a, b)]

/-- The SQLite table `tb_count`: a map from counter name to its `num` column. -/
def Store : Type := List (String × Int)

/-- Value of counter `n` in the table, embedding
`SELECT num FROM tb_count WHERE name = ?1` (as `none` when no row exists). -/
def storeGet (s : Store) (n : String) : Option Int := alGet s n

/-- The write of `increment`:
`INSERT INTO tb_count (name, num) VALUES (?1, 1) ON CONFLICT(name) DO UPDATE SET num = num + 1`. -/
def incrementWrite (s : Store) (n : String) : Store :=
  alInsert s n ((storeGet s n).getD 0 + 1)

/-- The write of `set_count`:
`INSERT INTO tb_count (name, num) VALUES (?1, ?2) ON CONFLICT(name) DO UPDATE SET num = ?2`. -/
def setWrite (s : Store) (n : String) (v : Int) : Store :=
  alInsert s n v

/-- `increment(pool, name)`: run the upsert (its error is discarded by `.ok()`,
modelled by the `writeOk` flag), then `SELECT num` with `unwrap_or(0)`
(modelled by `readOk`; a missing row also makes `fetch_one` fail, hence `0`).
Returns the updated table and the returned count. -/
def increment (writeOk readOk : Bool) (s : Store) (n : String) : Store × Int :=
  let s' := if writeOk then incrementWrite s n else s
  let count := if readOk then (storeGet s' n).getD 0 else 0
  (s', count)

/-- `ext.to_ascii_lowercase()`: ASCII lowercasing, character by character
(`Char.toLower` only maps `'A'`–`'Z'`, like the Rust method). -/
def asciiLower (s : String) : String := ⟨s.data.map Char.toLower⟩

/-- `mime_for(ext)`: fixed extension-to-MIME table after ASCII lowercasing. -/
def mime_for (ext : String) : String :=
  match asciiLower ext with
  | "png" => "image/png"
  | "gif" => "image/gif"
  | "jpg" => "image/jpeg"
  | "jpeg" => "image/jpeg"
  | _ => "application/octet-stream"

/-- The standard base64 alphabet used by `base64::engine::general_purpose::STANDARD`. -/
def base64Alphabet : List Char :=
  "ABCDEFGHIJKLMNOPQRSTUVWXYZabcdefghijklmnopqrstuvwxyz0123456789+/".data

/-- The base64 character for a 6-bit value. -/
def b64char (n : Nat) : Char := base64Alphabet.getD n '='

/-- Standard base64 with padding (`BASE64.encode`), over bytes as `Nat`s. -/
def base64Encode : List Nat → List Char
  | [] => []
  | [a] => [b64char (a / 4), b64char (a % 4 * 16), '=', '=']
  | [a, b] => [b64char (a / 4), b64char (a % 4 * 16 + b / 16), b64char (b % 16 * 4), '=']
  | a :: b :: c :: rest =>
      b64char (a / 4) :: b64char (a % 4 * 16 + b / 16) ::
      b64char (b % 16 * 4 + c / 64) :: b64char (c % 64) :: base64Encode rest

/-- One directory entry inside a theme directory, as the Rust code can observe
it: `stem` is `path.file_stem()?.to_str()?` (`none` when the stem is missing or
not valid UTF-8), `ext` is `path.extension().and_then(|e| e.to_str())`, and
`bytes` is the content of `std::fs::read` (`none` when the read fails). -/
structure FileEntry where
  stem : Option String
  ext : Option String
  bytes : Option (List Nat)

/-- `load_digit(path)`: the file's stem must exist and start with an ASCII
digit; the bytes must be readable; a missing extension falls back to `""`
via `unwrap_or("")`. Produces the digit and the data-URI reference. -/
def load_digit (f : FileEntry) : Option (Char × String) :=
  match f.stem with
  | none => none
  | some stem =>
    match stem.data.head? with
    | none => none
    | some digit =>
      if ¬ digit.isDigit then none
      else
        match f.bytes with
        | none => none
        | some bytes =>
          let ext := f.ext.getD ""
          some (digit, "data:" ++ mime_for ext ++ ";base64," ++
            (base64Encode bytes).asString)

/-- A loaded theme: `id_to_uri` maps minted glyph identifiers to data-URIs,
`digits` maps a digit character to the identifier of its glyph. -/
structure ThemeData where
  id_to_uri : List (String × String)
  digits : List (Char × String)

/-- The per-theme file loop of `load_themes`: for each file that yields a
glyph, look its URI up in `uri_to_id`, minting `"i<counter>"` when absent
(`entry(uri).or_insert_with`), and upsert the digit binding (last write wins).
Returns `(uri_to_id, digits, id_counter)`. -/
def loadFiles : List FileEntry → List (String × String) → List (Char × String) →
    Nat → List (String × String) × List (Char × String) × Nat
  | [], u, d, c => (u, d, c)
  | f :: rest, u, d, c =>
    match load_digit f with
    | none => loadFiles rest u d c
    | some (digit, uri) =>
      match alGet u uri with
      | some id => loadFiles rest u (alInsert d digit id) c
      | none =>
          let newId := "i" ++ toString c
          loadFiles rest (u ++ [(uri, newId)]) (alInsert d digit newId) (c + 1)

/-- The per-theme body of `load_themes`: run the file loop from an empty
builder state and invert `uri_to_id` into `id_to_uri`. -/
def loadTheme (files : List FileEntry) : ThemeData :=
  let r := loadFiles files [] [] 0
  ⟨r.1.map (fun p => (p.2, p.1)), r.2.1⟩

/-- One entry of the theme root directory: its name, whether it is a
directory, and its file listing (`none` when `read_dir` on it fails). -/
structure DirEntry where
  name : String
  isDir : Bool
  files : Option (List FileEntry)

/-- `load_themes(dir)`: an unreadable root yields the empty registry;
non-directory entries are skipped; an unreadable theme directory is skipped;
a theme whose digit map comes out empty is discarded. -/
def load_themes (root : Option (List DirEntry)) : List (String × ThemeData) :=
  match root with
  | none => []
  | some entries =>
    entries.foldl
      (fun themes e =>
        if ¬ e.isDir then themes
        else
          match e.files with
          | none => themes
          | some fs =>
            let td := loadTheme fs
            if td.digits.isEmpty then themes
            else alInsert themes e.name td)
      []

/-- `IMG_WIDTH`. -/
def IMG_WIDTH : Nat := 45
/-- `IMG_HEIGHT`. -/
def IMG_HEIGHT : Nat := 100
/-- `PAD_LENGTH`. -/
def PAD_LENGTH : Nat := 7

/-- The character data of Rust's `format!("{:0>width$}", count, width = 7)`:
the decimal display of `count`, left-filled with `'0'` up to width 7. -/
def padChars (count : Int) : List Char :=
  let s := (toString count).data
  if s.length < PAD_LENGTH then List.replicate (PAD_LENGTH - s.length) '0' ++ s
  else s

/-- One `<use href="#id" x=... y="0" width=... height=.../>` placement. -/
structure SvgUse where
  id : String
  x : Nat
  y : Nat
  w : Nat
  h : Nat
deriving DecidableEq

/-- One `<image id=... href=uri/>` glyph definition. -/
structure SvgDef where
  id : String
  uri : String
deriving DecidableEq

/-- The `uses` loop of `render_svg`: enumerate the padded text's characters;
positions whose digit has a glyph identifier yield a placement at
`x = i * IMG_WIDTH`; the others are dropped by `filter_map`. -/
def renderUses (td : ThemeData) (count : Int) : List SvgUse :=
  (padChars count).enum.filterMap
    (fun p => (alGet td.digits p.2).map
      (fun id => ⟨id, p.1 * IMG_WIDTH, 0, IMG_WIDTH, IMG_HEIGHT⟩))

/-- The `used_ids` set collected while building the placements (a `HashSet`,
iterated in arbitrary order; embedded as the duplicate-free list of
identifiers occurring among the placements). -/
def usedIds (td : ThemeData) (count : Int) : List String :=
  ((renderUses td count).map SvgUse.id).dedup

/-- The `defs` loop of `render_svg`: one `<image>` per used identifier that
`id_to_uri` resolves (unresolvable identifiers are dropped by `filter_map`). -/
def renderDefs (td : ThemeData) (count : Int) : List SvgDef :=
  (usedIds td count).filterMap
    (fun id => (alGet td.id_to_uri id).map (fun uri => ⟨id, uri⟩))

/-- The rendered document: the template's `{width}` is replaced by
`PAD_LENGTH as u32 * IMG_WIDTH`, `{height}` by `IMG_HEIGHT`, plus the defs
and uses blocks. -/
structure RenderedSvg where
  width : Nat
  height : Nat
  defs : List SvgDef
  uses : List SvgUse
deriving DecidableEq

/-- `render_svg(theme_data, count)`. -/
def render_svg (td : ThemeData) (count : Int) : RenderedSvg :=
  ⟨PAD_LENGTH * IMG_WIDTH, IMG_HEIGHT, renderDefs td count, renderUses td count⟩

/-- The response of the `get_image` handler. -/
inductive GetImageResponse where
  | ok (svg : RenderedSvg)
  | internalServerError (body : String)
deriving DecidableEq

/-- The theme-resolution chain of `get_image`:
`themes.get(theme_key).or_else(themes.get(default)).or_else(themes.values().next())`
(the `HashMap` iterates in arbitrary order; its first value is embedded as the
head of the association list). -/
def resolveTheme (themes : List (String × ThemeData))
    (theme_key default_theme : String) : Option ThemeData :=
  (alGet themes theme_key).orElse
    (fun _ => (alGet themes default_theme).orElse
      (fun _ => (themes.head?).map Prod.snd))

/-- `get_image`: increment the counter first, then resolve the theme
(query key, else default theme, else first registered theme), and either
render or answer 500 "no themes". Returns the updated store and response. -/
def get_image (themes : List (String × ThemeData)) (default_theme : String)
    (writeOk readOk : Bool) (s : Store) (name : String)
    (queryTheme : Option String) : Store × GetImageResponse :=
  let r := increment writeOk readOk s name
  match resolveTheme themes (queryTheme.getD default_theme) default_theme with
  | none => (r.1, .internalServerError "no themes")
  | some td => (r.1, .ok (render_svg td r.2))

/-- The response of the `set_count` handler. -/
inductive SetResponse where
  | unauthorized (body : String)
  | badRequest (body : String)
  | ok : SetResponse
deriving DecidableEq

/-- `set_count`: require a configured token, then a header token, then a
match; then reject a negative count; then run the upsert (error discarded by
`.ok()`, modelled by `writeOk`) and answer 200. -/
def set_count (api_auth_token : Option String) (headerToken : Option String)
    (writeOk : Bool) (s : Store) (name : String) (count : Int) :
    Store × SetResponse :=
  match api_auth_token with
  | none => (s, .unauthorized "Missing token configuration")
  | some expected =>
    match headerToken with
    | none => (s, .unauthorized "Missing token")
    | some token =>
      if token ≠ expected then (s, .unauthorized "Invalid token")
      else if count < 0 then (s, .badRequest "count must be non-negative")
      else ((if writeOk then setWrite s name count else s), .ok)

/-- The digit-to-URI relation the file loop realises: for each digit, the
data-URI of the last file in the listing that loads as that digit
(last write wins, like the `digits` upserts). Used to state which URI
"backs" a digit in the deduplication claims. -/
def extendDigitUriMap (m : List (Char × String)) (files : List FileEntry) :
    List (Char × String) :=
  (files.filterMap load_digit).foldl (fun acc p => alInsert acc p.1 p.2) m

/-- The digit-to-URI relation of a whole file listing. -/
def digitUriMap (files : List FileEntry) : List (Char × String) :=
  extendDigitUriMap [] files

/-- A tiny concrete theme used to instantiate theorems: one glyph for the
digit `'0'` with identifier `"i0"`. -/
def exTheme : ThemeData := ⟨[("i0", "u0")], [('0', "i0")]⟩

/-- A concrete glyph file: stem `"0"`, extension `"png"`, one byte. -/
def exFile : FileEntry := ⟨some "0", some "png", some [1]⟩

/-- A concrete theme root with one theme directory `"t"` holding `exFile`. -/
def exRoot : List DirEntry := [⟨"t", true, some [exFile]⟩]

/-- A glyph file for digit `'0'` whose bytes are `[7]`. -/
def exFile0 : FileEntry := ⟨some "0", some "png", some [7]⟩

/-- A glyph file for digit `'1'` with bytes identical to `exFile0`. -/
def exFile1 : FileEntry := ⟨some "1", some "png", some [7]⟩

/-! Basic lemmas about the association-list operations. -/

theorem alGet_nil {α β : Type} [DecidableEq α] (a : α) :
    alGet ([] : List (α × β)) a = none := rfl

theorem alGet_cons {α β : Type} [DecidableEq α] (k : α) (v : β)
    (m : List (α × β)) (a : α) :
    alGet ((k, v) :: m) a = if k = a then some v else alGet m a := rfl

theorem alGet_append_of_none {α β : Type} [DecidableEq α]
    {m : List (α × β)} {a : α} (m' : List (α × β)) (h : alGet m a = none) :
    alGet (m ++ m') a = alGet m' a := by
  induction m with
  | nil => rfl
  | cons p rest ih =>
    obtain ⟨k, v⟩ := p
    rw [alGet_cons] at h
    by_cases hk : k = a
    · simp [if_pos hk] at h
    · rw [if_neg hk] at h
      rw [List.cons_append, alGet_cons, if_neg hk]
      exact ih h

theorem alGet_append_of_some {α β : Type} [DecidableEq α]
    {m : List (α × β)} {a : α} {b : β} (m' : List (α × β))
    (h : alGet m a = some b) :
    alGet (m ++ m') a = some b := by
  induction m with
  | nil => simp [alGet_nil] at h
  | cons p rest ih =>
    obtain ⟨k, v⟩ := p
    rw [alGet_cons] at h
    by_cases hk : k = a
    · rw [if_pos hk] at h
      rw [List.cons_append, alGet_cons, if_pos hk]
      exact h
    · rw [if_neg hk] at h
      rw [List.cons_append, alGet_cons, if_neg hk]
      exact ih h

theorem alGet_overwrite_self {α β : Type} [DecidableEq α]
    {m : List (α × β)} {a : α} (b : β) (h : (alGet m a).isSome) :
    alGet (m.map (fun p => if p.1 = a then (a, b) else p)) a = some b := by
  induction m with
  | nil => simp [alGet_nil] at h
  | cons p rest ih =>
    obtain ⟨k, v⟩ := p
    simp only [List.map_cons]
    by_cases hk : k = a
    · have hp : (if ((k, v) : α × β).1 = a then (a, b) else (k, v)) = (a, b) := by
        simp [hk]
      rw [hp, alGet_cons, if_pos rfl]
    · have hp : (if ((k, v) : α × β).1 = a then (a, b) else (k, v)) = (k, v) := by
        simp [hk]
      rw [alGet_cons, if_neg hk] at h
      rw [hp, alGet_cons, if_neg hk]
      exact ih h

theorem alGet_overwrite_ne {α β : Type} [DecidableEq α]
    {m : List (α × β)} {a a' : α} (b : β) (h : a ≠ a') :
    alGet (m.map (fun p => if p.1 = a then (a, b) else p)) a' = alGet m a' := by
  induction m with
  | nil => rfl
  | cons p rest ih =>
    obtain ⟨k, v⟩ := p
    simp only [List.map_cons]
    by_cases hk : k = a
    · have hp : (if ((k, v) : α × β).1 = a then (a, b) else (k, v)) = (a, b) := by
        simp [hk]
      rw [hp, alGet_cons, if_neg h, alGet_cons, hk, if_neg h]
      exact ih
    · have hp : (if ((k, v) : α × β).1 = a then (a, b) else (k, v)) = (k, v) := by
        simp [hk]
      rw [hp, alGet_cons, alGet_cons]
      by_cases hk' : k = a'
      · rw [if_pos hk', if_pos hk']
      · rw [if_neg hk', if_neg hk']
        exact ih

theorem alGet_alInsert_self {α β : Type} [DecidableEq α]
    (m : List (α × β)) (a : α) (b : β) :
    alGet (alInsert m a b) a = some b := by
  unfold alInsert
  by_cases h : (alGet m a).isSome
  · rw [if_pos h]
    exact alGet_overwrite_self b h
  · rw [if_neg h]
    have hnone : alGet m a = none := Option.not_isSome_iff_eq_none.mp h
    rw [alGet_append_of_none _ hnone, alGet_cons, if_pos rfl]

theorem alGet_alInsert_ne {α β : Type} [DecidableEq α]
    (m : List (α × β)) {a a' : α} (b : β) (h : a ≠ a') :
    alGet (alInsert m a b) a' = alGet m a' := by
  unfold alInsert
  by_cases hs : (alGet m a).isSome
  · rw [if_pos hs]
    exact alGet_overwrite_ne b h
  · rw [if_neg hs]
    by_cases h' : (alGet m a').isSome
    · obtain ⟨b', hb'⟩ := Option.isSome_iff_exists.mp h'
      rw [alGet_append_of_some _ hb', hb']
    · have hnone' : alGet m a' = none := Option.not_isSome_iff_eq_none.mp h'
      rw [alGet_append_of_none _ hnone', hnone', alGet_cons, if_neg h, alGet_nil]

theorem alGet_mem {α β : Type} [DecidableEq α]
    {m : List (α × β)} {a : α} {b : β} (h : alGet m a = some b) :
    (a, b) ∈ m := by
  induction m with
  | nil => simp [alGet_nil] at h
  | cons p rest ih =>
    obtain ⟨k, v⟩ := p
    rw [alGet_cons] at h
    by_cases hk : k = a
    · rw [if_pos hk] at h
      injection h with hvb
      subst hk
      subst hvb
      exact List.mem_cons_self _ _
    · rw [if_neg hk] at h
      exact List.mem_cons_of_mem _ (ih h)

theorem mem_alGet_isSome {α β : Type} [DecidableEq α]
    {m : List (α × β)} {a : α} {b : β} (h : (a, b) ∈ m) :
    (alGet m a).isSome := by
  induction m with
  | nil => simp at h
  | cons p rest ih =>
    obtain ⟨k, v⟩ := p
    rw [alGet_cons]
    by_cases hk : k = a
    · simp [hk]
    · rw [if_neg hk]
      rcases List.mem_cons.mp h with h1 | h2
      · exact absurd (congrArg Prod.fst h1).symm hk
      · exact ih h2

theorem mem_alInsert {α β : Type} [DecidableEq α]
    {m : List (α × β)} {a : α} {b : β} {x : α × β}
    (h : x ∈ alInsert m a b) : x ∈ m ∨ x = (a, b) := by
  unfold alInsert at h
  by_cases hs : (alGet m a).isSome
  · rw [if_pos hs] at h
    obtain ⟨p, hp, he⟩ := List.mem_map.mp h
    by_cases hpa : p.1 = a
    · right; rw [← he, if_pos hpa]
    · left; rw [← he, if_neg hpa]; exact hp
  · rw [if_neg hs] at h
    rcases List.mem_append.mp h with h1 | h2
    · left; exact h1
    · right; simpa using h2

/-! Store lemmas. -/

theorem storeGet_incrementWrite_self (s : Store) (n : String) :
    storeGet (incrementWrite s n) n = some ((storeGet s n).getD 0 + 1) :=
  alGet_alInsert_self s n _

theorem storeGet_setWrite_self (s : Store) (n : String) (v : Int) :
    storeGet (setWrite s n v) n = some v :=
  alGet_alInsert_self s n v

/-- Claim C1: with the store I/O succeeding, `increment` creates the counter
at value 0 if absent, increases it by exactly 1, and returns the resulting
value (conjuncts 1 and 2, with `getD 0` reading an absent row as 0); on a
fresh name it returns 1 (conjunct 3); and after `set(name, 0)` a subsequent
`increment` returns 1 again (conjunct 4). -/
theorem increment_creates_then_adds_one (s : Store) (n : String) :
    (increment true true s n).2 = (storeGet s n).getD 0 + 1 ∧
    storeGet (increment true true s n).1 n = some ((storeGet s n).getD 0 + 1) ∧
    (storeGet s n = none → (increment true true s n).2 = 1) ∧
    (increment true true (setWrite s n 0) n).2 = 1 := by
  refine ⟨?_, ?_, ?_, ?_⟩
  · simp [increment, storeGet_incrementWrite_self]
  · simp [increment, storeGet_incrementWrite_self]
  · intro h
    simp [increment, storeGet_incrementWrite_self, h]
  · simp [increment, storeGet_incrementWrite_self, storeGet_setWrite_self]

/-- Witness for C1 at concrete inputs: an empty store and the name `"x"`. -/
theorem increment_creates_then_adds_one_witness :
    (increment true true ([] : Store) "x").2 = 1 ∧
    (increment true true (setWrite ([] : Store) "x" 0) "x").2 = 1 :=
  ⟨(increment_creates_then_adds_one [] "x").2.2.1 rfl,
   (increment_creates_then_adds_one [] "x").2.2.2⟩

/-- Claim C5: the write of `increment` is the single SQL statement
`INSERT ... ON CONFLICT ... DO UPDATE SET num = num + 1`, executed atomically
by the database, so a concurrent execution of N increments of one name is
some sequential composition of N atomic write steps; after N such steps on a
fresh name the stored value is exactly N (no lost updates). -/
theorem concurrent_increments_yield_n (s : Store) (n : String) (N : Nat)
    (h : storeGet s n = none) :
    storeGet ((fun st => incrementWrite st n)^[N] s) n =
      if N = 0 then none else some (N : Int) := by
  induction N with
  | zero => simpa using h
  | succ k ih =>
    rw [Function.iterate_succ_apply', if_neg (Nat.succ_ne_zero k)]
    show storeGet (incrementWrite _ n) n = _
    rw [storeGet_incrementWrite_self, ih]
    by_cases hk : k = 0
    · subst hk
      norm_num
    · rw [if_neg hk]
      simp only [Option.getD_some, Option.some.injEq]
      push_cast
      ring

/-- Witness for C5: three increments of `"x"` starting from the empty store. -/
theorem concurrent_increments_yield_n_witness :
    storeGet ((fun st => incrementWrite st "x")^[3] ([] : Store)) "x" =
      if 3 = 0 then none else some (3 : Int) :=
  concurrent_increments_yield_n [] "x" 3 rfl

/-- Claim C8: an authenticated `set_count` request with a negative count is
rejected with a bad-request response and leaves the store unchanged. -/
theorem set_count_negative_rejected (tok : String) (w : Bool) (s : Store)
    (name : String) (count : Int) (h : count < 0) :
    set_count (some tok) (some tok) w s name count =
      (s, SetResponse.badRequest "count must be non-negative") := by
  simp [set_count, h]

/-- Witness for C8: `set("y", -1)` with matching token `"t"`. -/
theorem set_count_negative_rejected_witness :
    set_count (some "t") (some "t") true ([] : Store) "y" (-1) =
      ([], SetResponse.badRequest "count must be non-negative") :=
  set_count_negative_rejected "t" true [] "y" (-1) (by norm_num)

/-- Claim C10: `set_count` checks authentication before validating the count:
whenever the header token is missing or does not match the configured token
(including when no token is configured), the response is unauthorized and the
store is unchanged, regardless of the count; a bad-request response can only
arise once the token check has passed (and then only for a negative count). -/
theorem set_count_auth_checked_before_count (cfg hdr : Option String)
    (w : Bool) (s : Store) (name : String) (count : Int) :
    ((hdr = none ∨ ∀ e, cfg = some e → hdr ≠ some e) →
      (set_count cfg hdr w s name count).1 = s ∧
      ∃ msg, (set_count cfg hdr w s name count).2 = SetResponse.unauthorized msg) ∧
    (∀ msg, (set_count cfg hdr w s name count).2 = SetResponse.badRequest msg →
      ∃ e, cfg = some e ∧ hdr = some e ∧ count < 0) := by
  cases cfg with
  | none =>
    refine ⟨fun _ => ⟨rfl, "Missing token configuration", rfl⟩, fun msg hmsg => ?_⟩
    simp [set_count] at hmsg
  | some e =>
    cases hdr with
    | none =>
      refine ⟨fun _ => ⟨rfl, "Missing token", rfl⟩, fun msg hmsg => ?_⟩
      simp [set_count] at hmsg
    | some t =>
      by_cases ht : t = e
      · subst ht
        refine ⟨fun hd => ?_, fun msg hmsg => ?_⟩
        · rcases hd with hd | hd
          · exact absurd hd (by simp)
          · exact absurd rfl (hd t rfl)
        · by_cases hc : count < 0
          · exact ⟨t, rfl, rfl, hc⟩
          · simp [set_count, hc] at hmsg
      · refine ⟨fun _ => ⟨?_, "Invalid token", ?_⟩, fun msg hmsg => ?_⟩
        · simp [set_count, ht]
        · simp [set_count, ht]
        · simp [set_count, ht] at hmsg

/-- Witness for C10: a mismatching token with a negative count is rejected as
unauthorized with the store untouched. -/
theorem set_count_auth_checked_before_count_witness :
    (set_count (some "t") (some "u") true ([] : Store) "y" (-1)).1 = ([] : Store) ∧
    ∃ msg, (set_count (some "t") (some "u") true ([] : Store) "y" (-1)).2 =
      SetResponse.unauthorized msg :=
  (set_count_auth_checked_before_count (some "t") (some "u") true [] "y" (-1)).1
    (Or.inr (by
      intro e he ht
      rw [← he] at ht
      exact (by decide : ("u" : String) ≠ "t") (Option.some.inj ht)))

/-- Claim C9: with an empty theme registry, `get_image` answers the server
error "no themes", but the increment has already taken effect: the returned
store is the incremented one, and the stored value of the requested name has
grown by one. -/
theorem get_image_empty_registry_increments (dflt : String) (ro : Bool)
    (s : Store) (name : String) (q : Option String) :
    get_image [] dflt true ro s name q =
      (incrementWrite s name, GetImageResponse.internalServerError "no themes") ∧
    storeGet (get_image [] dflt true ro s name q).1 name =
      some ((storeGet s name).getD 0 + 1) := by
  have hres : resolveTheme [] (q.getD dflt) dflt = none := rfl
  refine ⟨?_, ?_⟩
  · simp [get_image, hres, increment]
  · simp [get_image, hres, increment, storeGet_incrementWrite_self]

/-- Counterexample to C7 as stated: with a non-empty registry, a failed
increment write (`writeOk = false`) still yields a normal success response —
the write error is discarded by `.ok()` and the fresh name reads as 0. -/
theorem get_image_write_failure_received_ok :
    (get_image [("t", exTheme)] "t" false true ([] : Store) "x" none).2 =
      GetImageResponse.ok (render_svg exTheme 0) := by
  rfl

/-- Claim C7 as amended: a store I/O failure on the write path of `increment`
does not surface to the request: whenever the theme registry is non-empty,
`get_image` with a failing write still completes as a normal success
response, leaving the store unchanged and rendering the value read from the
unchanged store (or 0 when the read fails too). -/
theorem get_image_write_failure_still_succeeds
    (themes : List (String × ThemeData)) (dflt : String) (ro : Bool)
    (s : Store) (name : String) (q : Option String) (h : themes ≠ []) :
    ∃ td, (get_image themes dflt false ro s name q).1 = s ∧
      (get_image themes dflt false ro s name q).2 =
        GetImageResponse.ok
          (render_svg td (if ro then (storeGet s name).getD 0 else 0)) := by
  have hsome : ∃ td, resolveTheme themes (q.getD dflt) dflt = some td := by
    cases h1 : alGet themes (q.getD dflt) with
    | some td => exact ⟨td, by simp [resolveTheme, h1]⟩
    | none =>
      cases h2 : alGet themes dflt with
      | some td => exact ⟨td, by simp [resolveTheme, h1, h2]⟩
      | none =>
        cases themes with
        | nil => exact absurd rfl h
        | cons p rest => exact ⟨p.2, by simp [resolveTheme, h1, h2]⟩
  obtain ⟨td, htd⟩ := hsome
  exact ⟨td, by simp [get_image, htd, increment], by simp [get_image, htd, increment]⟩

/-- Witness for the amended C7 at concrete inputs. -/
theorem get_image_write_failure_still_succeeds_witness :
    ∃ td, (get_image [("t", exTheme)] "t" false true ([] : Store) "x" none).1 =
        ([] : Store) ∧
      (get_image [("t", exTheme)] "t" false true ([] : Store) "x" none).2 =
        GetImageResponse.ok
          (render_svg td (if true then (storeGet ([] : Store) "x").getD 0 else 0)) :=
  get_image_write_failure_still_succeeds [("t", exTheme)] "t" true [] "x" none
    (List.cons_ne_nil _ _)

/-- Counterexample to C6 as stated: a readable file whose stem is `"0"` and
whose path carries no extension is not skipped — `load_digit` produces a
glyph with the generic binary MIME type. -/
theorem load_digit_no_extension_loads :
    load_digit ⟨some "0", none, some [0]⟩ =
      some ('0', "data:application/octet-stream;base64,AA==") := by
  rfl

/-- Claim C6 as amended: a file with no extension information is loaded, not
skipped: it yields its stem's leading digit with the generic MIME type
`application/octet-stream` (conjunct 1); silent skipping happens for an
unreadable filename encoding (conjunct 2) and for an unreadable file
(conjunct 3). -/
theorem load_digit_missing_ext_is_generic (st : String) (d : Char)
    (bs : List Nat) (h1 : st.data.head? = some d) (h2 : d.isDigit = true) :
    load_digit ⟨some st, none, some bs⟩ =
      some (d, "data:application/octet-stream;base64," ++
        (base64Encode bs).asString) ∧
    (∀ e b, load_digit ⟨none, e, b⟩ = none) ∧
    (∀ st2 e, load_digit ⟨some st2, e, none⟩ = none) := by
  refine ⟨?_, fun e b => rfl, ?_⟩
  · have hfold : (("data:" ++ "application/octet-stream") ++ ";base64," : String) =
        "data:application/octet-stream;base64," := rfl
    simp only [load_digit, h1, h2, Bool.not_true, Option.getD_none]
    rw [show mime_for "" = "application/octet-stream" from rfl]
    rw [hfold]
    simp
  · intro st2 e
    cases hh : st2.data.head? with
    | none => simp [load_digit, hh]
    | some dg =>
      by_cases hd : dg.isDigit
      · simp [load_digit, hh, hd]
      · simp [load_digit, hh, hd]

/-- Witness for the amended C6 at a concrete file. -/
theorem load_digit_missing_ext_is_generic_witness :
    load_digit ⟨some "0x", none, some [1, 2]⟩ =
      some ('0', "data:application/octet-stream;base64," ++
        (base64Encode [1, 2]).asString) :=
  (load_digit_missing_ext_is_generic "0x" '0' [1, 2] rfl rfl).1

/-! Lemmas about the decimal formatting used by `render_svg`. -/

theorem digitChar_isDigit {n : Nat} (h : n < 10) :
    (Nat.digitChar n).isDigit = true := by
  interval_cases n <;> decide

theorem toDigitsCore_all_digits :
    ∀ (fuel n : Nat) (ds : List Char), (∀ c ∈ ds, c.isDigit = true) →
      ∀ c ∈ Nat.toDigitsCore 10 fuel n ds, c.isDigit = true := by
  intro fuel
  induction fuel with
  | zero => intro n ds hds c hc; exact hds c hc
  | succ f ih =>
    intro n ds hds c hc
    simp only [Nat.toDigitsCore] at hc
    have hd : ∀ c ∈ (Nat.digitChar (n % 10) :: ds), c.isDigit = true := by
      intro c' hc'
      rcases List.mem_cons.mp hc' with h1 | h2
      · rw [h1]
        exact digitChar_isDigit (Nat.mod_lt _ (by norm_num))
      · exact hds c' h2
    by_cases hz : n / 10 = 0
    · rw [if_pos hz] at hc
      exact hd c hc
    · rw [if_neg hz] at hc
      exact ih (n / 10) _ hd c hc

theorem nat_repr_all_digits (n : Nat) :
    ∀ c ∈ (Nat.repr n).data, c.isDigit = true := by
  intro c hc
  exact toDigitsCore_all_digits (n + 1) n [] (by intro c' hc'; simp at hc') c hc

theorem toString_int_nonneg {count : Int} (h : 0 ≤ count) :
    toString count = Nat.repr count.toNat := by
  cases count with
  | ofNat m => rfl
  | negSucc m => exact absurd h (by simp)

theorem padChars_length (count : Int) :
    (padChars count).length = max PAD_LENGTH (toString count).data.length := by
  unfold padChars
  by_cases h : (toString count).data.length < PAD_LENGTH
  · rw [if_pos h, List.length_append, List.length_replicate]
    omega
  · rw [if_neg h]
    omega

theorem padChars_all_digits {count : Int} (h : 0 ≤ count) :
    ∀ c ∈ padChars count, c.isDigit = true := by
  intro c hc
  have hs : ∀ c ∈ (toString count).data, c.isDigit = true := by
    rw [toString_int_nonneg h]
    exact nat_repr_all_digits _
  unfold padChars at hc
  by_cases hl : (toString count).data.length < PAD_LENGTH
  · rw [if_pos hl] at hc
    rcases List.mem_append.mp hc with h1 | h2
    · rw [List.eq_of_mem_replicate h1]
      decide
    · exact hs c h2
  · rw [if_neg hl] at hc
    exact hs c hc

/-! Lemmas characterising the placements emitted by `render_svg`. -/

theorem renderUses_mem_of_pos (td : ThemeData) (count : Int) (i : Nat)
    (hi : i < (padChars count).length) (id : String)
    (hid : alGet td.digits ((padChars count).get ⟨i, hi⟩) = some id) :
    (⟨id, i * IMG_WIDTH, 0, IMG_WIDTH, IMG_HEIGHT⟩ : SvgUse) ∈
      renderUses td count := by
  apply List.mem_filterMap.mpr
  refine ⟨(i, (padChars count).get ⟨i, hi⟩), ?_, ?_⟩
  · apply List.mk_mem_enum_iff_getElem?.mpr
    simp [List.getElem?_eq_getElem hi]
  · rw [hid]
    rfl

theorem renderUses_mem_inv (td : ThemeData) (count : Int) (u : SvgUse)
    (hu : u ∈ renderUses td count) :
    ∃ i, ∃ hi : i < (padChars count).length,
      alGet td.digits ((padChars count).get ⟨i, hi⟩) = some u.id ∧
      u.x = i * IMG_WIDTH ∧ u.y = 0 ∧ u.w = IMG_WIDTH ∧ u.h = IMG_HEIGHT := by
  obtain ⟨a, ha, hfa⟩ := List.mem_filterMap.mp hu
  obtain ⟨i, ch⟩ := a
  obtain ⟨id, hid, heq⟩ := Option.map_eq_some'.mp hfa
  have hmem := List.mk_mem_enum_iff_getElem?.mp ha
  have hi : i < (padChars count).length := by
    by_contra hcon
    rw [List.getElem?_eq_none (Nat.le_of_not_lt hcon)] at hmem
    exact Option.noConfusion hmem
  refine ⟨i, hi, ?_, ?_, ?_, ?_, ?_⟩
  · have hch : (padChars count).get ⟨i, hi⟩ = ch := by
      have := List.getElem?_eq_getElem hi
      rw [this] at hmem
      exact Option.some.inj hmem
    rw [hch, hid, ← heq]
  all_goals rw [← heq]

/-- Claim C2: the rendered value is the zero-padded decimal text of the
count, of length exactly 7 (wider, untruncated, when the count has more
than 7 digits) and consisting of digit characters only; each position whose
digit the theme maps emits a placement at `x = i * 45`, positions whose
digit is unmapped contribute no placement at their offset, every placement
comes from such a position, and the canvas is fixed at 7 * 45 by 100
independently of the value. -/
theorem render_svg_layout (td : ThemeData) (count : Int) (h : 0 ≤ count) :
    (render_svg td count).width = 7 * 45 ∧
    (render_svg td count).height = 100 ∧
    (padChars count).length = max 7 (toString count).data.length ∧
    (∀ c ∈ padChars count, c.isDigit = true) ∧
    (∀ (i : Nat) (hi : i < (padChars count).length),
      (∀ id, alGet td.digits ((padChars count).get ⟨i, hi⟩) = some id →
        (⟨id, i * 45, 0, 45, 100⟩ : SvgUse) ∈ (render_svg td count).uses) ∧
      (alGet td.digits ((padChars count).get ⟨i, hi⟩) = none →
        ∀ u ∈ (render_svg td count).uses, u.x ≠ i * 45)) ∧
    (∀ u ∈ (render_svg td count).uses,
      ∃ i, ∃ hi : i < (padChars count).length,
        alGet td.digits ((padChars count).get ⟨i, hi⟩) = some u.id ∧
        u.x = i * 45) := by
  refine ⟨rfl, rfl, padChars_length count, padChars_all_digits h, ?_, ?_⟩
  · intro i hi
    constructor
    · intro id hid
      exact renderUses_mem_of_pos td count i hi id hid
    · intro hnone u hu hx
      obtain ⟨j, hj, hjid, hjx, -, -, -⟩ := renderUses_mem_inv td count u hu
      have hij : j = i := by
        rw [show IMG_WIDTH = 45 from rfl] at hjx
        have : j * 45 = i * 45 := by rw [← hjx, hx]
        omega
      subst hij
      rw [hjid] at hnone
      exact Option.noConfusion hnone
  · intro u hu
    obtain ⟨i, hi, hid, hx, -, -, -⟩ := renderUses_mem_inv td count u hu
    exact ⟨i, hi, hid, hx⟩

/-- Witness for C2: the canvas of the example theme at count 1. -/
theorem render_svg_layout_witness :
    (render_svg exTheme 1).width = 7 * 45 ∧ (render_svg exTheme 1).height = 100 :=
  ⟨(render_svg_layout exTheme 1 (by norm_num)).1,
   (render_svg_layout exTheme 1 (by norm_num)).2.1⟩

/-! Step equations for the per-theme file loop. -/

theorem loadFiles_nil (u : List (String × String)) (d : List (Char × String))
    (c : Nat) : loadFiles [] u d c = (u, d, c) := rfl

theorem loadFiles_cons_skip {f : FileEntry} (rest : List FileEntry)
    (u : List (String × String)) (d : List (Char × String)) (c : Nat)
    (h : load_digit f = none) :
    loadFiles (f :: rest) u d c = loadFiles rest u d c := by
  simp only [loadFiles, h]

theorem loadFiles_cons_found {f : FileEntry} {d0 : Char} {uri id : String}
    (rest : List FileEntry) (u : List (String × String))
    (d : List (Char × String)) (c : Nat)
    (h1 : load_digit f = some (d0, uri)) (h2 : alGet u uri = some id) :
    loadFiles (f :: rest) u d c = loadFiles rest u (alInsert d d0 id) c := by
  simp only [loadFiles, h1, h2]

theorem loadFiles_cons_new {f : FileEntry} {d0 : Char} {uri : String}
    (rest : List FileEntry) (u : List (String × String))
    (d : List (Char × String)) (c : Nat)
    (h1 : load_digit f = some (d0, uri)) (h2 : alGet u uri = none) :
    loadFiles (f :: rest) u d c =
      loadFiles rest (u ++ [(uri, "i" ++ toString c)])
        (alInsert d d0 ("i" ++ toString c)) (c + 1) := by
  simp only [loadFiles, h1, h2]

/-- Every glyph identifier bound in the digit map built by the file loop
appears as the identifier of some URI in the `uri_to_id` builder. -/
theorem loadFiles_ids_in_u :
    ∀ (files : List FileEntry) (u : List (String × String))
      (d : List (Char × String)) (c : Nat),
      (∀ p ∈ d, ∃ uri, (uri, p.2) ∈ u) →
      ∀ p ∈ (loadFiles files u d c).2.1,
        ∃ uri, (uri, p.2) ∈ (loadFiles files u d c).1 := by
  intro files
  induction files with
  | nil => intro u d c h p hp; exact h p hp
  | cons f rest ih =>
    intro u d c h
    cases hld : load_digit f with
    | none =>
      rw [loadFiles_cons_skip rest u d c hld]
      exact ih u d c h
    | some p0 =>
      obtain ⟨d0, uri0⟩ := p0
      cases halg : alGet u uri0 with
      | some id =>
        rw [loadFiles_cons_found rest u d c hld halg]
        apply ih
        intro q hq
        rcases mem_alInsert hq with h1 | h2
        · exact h q h1
        · rw [h2]
          exact ⟨uri0, alGet_mem halg⟩
      | none =>
        rw [loadFiles_cons_new rest u d c hld halg]
        apply ih
        intro q hq
        rcases mem_alInsert hq with h1 | h2
        · obtain ⟨uri', hm⟩ := h q h1
          exact ⟨uri', List.mem_append_left _ hm⟩
        · rw [h2]
          exact ⟨uri0, List.mem_append_right _ (List.mem_singleton.mpr rfl)⟩

/-- Every identifier referenced by a loaded theme's digit map resolves in its
`id_to_uri` map. -/
theorem loadTheme_ids_resolve (files : List FileEntry) :
    ∀ p ∈ (loadTheme files).digits,
      (alGet (loadTheme files).id_to_uri p.2).isSome := by
  intro p hp
  obtain ⟨uri, hmem⟩ :=
    loadFiles_ids_in_u files [] [] 0 (by intro q hq; simp at hq) p hp
  exact mem_alGet_isSome
    (List.mem_map.mpr ⟨(uri, p.2), hmem, rfl⟩)

/-- Claim C4: every theme registered by `load_themes` has a non-empty digit
map, and every glyph identifier referenced by its digit map has an entry in
its identifier-to-reference map. -/
theorem load_themes_registry_invariant (root : Option (List DirEntry)) :
    ∀ p ∈ load_themes root,
      p.2.digits ≠ [] ∧
      ∀ q ∈ p.2.digits, (alGet p.2.id_to_uri q.2).isSome := by
  cases root with
  | none => intro p hp; simp [load_themes] at hp
  | some entries =>
    have hgen :
        ∀ (es : List DirEntry) (acc : List (String × ThemeData)),
          (∀ p ∈ acc, p.2.digits ≠ [] ∧
            ∀ q ∈ p.2.digits, (alGet p.2.id_to_uri q.2).isSome) →
          ∀ p ∈ List.foldl
              (fun themes e =>
                if ¬ e.isDir then themes
                else
                  match e.files with
                  | none => themes
                  | some fs =>
                    let td := loadTheme fs
                    if td.digits.isEmpty then themes
                    else alInsert themes e.name td)
              acc es,
            p.2.digits ≠ [] ∧
            ∀ q ∈ p.2.digits, (alGet p.2.id_to_uri q.2).isSome := by
      intro es
      induction es with
      | nil => intro acc hacc p hp; exact hacc p hp
      | cons e rest ih =>
        intro acc hacc
        rw [List.foldl_cons]
        apply ih
        by_cases hdir : e.isDir
        · cases hfs : e.files with
          | none => simpa [hdir, hfs] using hacc
          | some fs =>
            by_cases hemp : (loadTheme fs).digits.isEmpty
            · simpa [hdir, hfs, hemp] using hacc
            · intro p hp
              simp only [hdir, hfs, hemp] at hp
              rcases mem_alInsert (by simpa using hp) with h1 | h2
              · exact hacc p h1
              · rw [h2]
                refine ⟨?_, loadTheme_ids_resolve fs⟩
                intro hnil
                rw [List.isEmpty_iff] at hemp
                exact hemp hnil
        · simpa [hdir] using hacc
    intro p hp
    exact hgen entries [] (by intro q hq; simp at hq) p hp

/-- Witness for C4: the registry loaded from the concrete root `exRoot`. -/
theorem load_themes_registry_invariant_witness :
    (loadTheme [exFile]).digits ≠ [] :=
  (load_themes_registry_invariant (some exRoot) ("t", loadTheme [exFile])
    (by
      rw [show load_themes (some exRoot) = [("t", loadTheme [exFile])] from rfl]
      exact List.mem_singleton.mpr rfl)).1

/-! Step equations for the digit-to-URI relation. -/

theorem extendDUM_cons_skip (m : List (Char × String)) {f : FileEntry}
    (rest : List FileEntry) (h : load_digit f = none) :
    extendDigitUriMap m (f :: rest) = extendDigitUriMap m rest := by
  unfold extendDigitUriMap
  rw [List.filterMap_cons_none h]

theorem extendDUM_cons_load (m : List (Char × String)) {f : FileEntry}
    {d0 : Char} {uri : String} (rest : List FileEntry)
    (h : load_digit f = some (d0, uri)) :
    extendDigitUriMap m (f :: rest) =
      extendDigitUriMap (alInsert m d0 uri) rest := by
  unfold extendDigitUriMap
  rw [List.filterMap_cons_some h, List.foldl_cons]

/-- Consistency of the file loop: the digit map always agrees with the
digit-to-URI relation through the `uri_to_id` builder — a digit is bound in
`digits` exactly when some file backs it, and its identifier is the one the
builder assigns to its backing URI. -/
theorem loadFiles_consistent :
    ∀ (files : List FileEntry) (u : List (String × String))
      (d m : List (Char × String)) (c : Nat),
      (∀ dg : Char,
        (alGet m dg = none ∧ alGet d dg = none) ∨
        (∃ uri id, alGet m dg = some uri ∧ alGet d dg = some id ∧
          alGet u uri = some id)) →
      ∀ dg : Char,
        (alGet (extendDigitUriMap m files) dg = none ∧
         alGet (loadFiles files u d c).2.1 dg = none) ∨
        (∃ uri id, alGet (extendDigitUriMap m files) dg = some uri ∧
          alGet (loadFiles files u d c).2.1 dg = some id ∧
          alGet (loadFiles files u d c).1 uri = some id) := by
  intro files
  induction files with
  | nil => intro u d m c h dg; exact h dg
  | cons f rest ih =>
    intro u d m c h dg
    cases hld : load_digit f with
    | none =>
      rw [extendDUM_cons_skip m rest hld, loadFiles_cons_skip rest u d c hld]
      exact ih u d m c h dg
    | some p0 =>
      obtain ⟨d0, uri0⟩ := p0
      rw [extendDUM_cons_load m rest hld]
      cases halg : alGet u uri0 with
      | some id0 =>
        rw [loadFiles_cons_found rest u d c hld halg]
        apply ih
        intro dg'
        by_cases hdg : dg' = d0
        · subst hdg
          right
          exact ⟨uri0, id0, alGet_alInsert_self m dg' uri0,
            alGet_alInsert_self d dg' id0, halg⟩
        · rw [alGet_alInsert_ne m uri0 (Ne.symm hdg),
            alGet_alInsert_ne d id0 (Ne.symm hdg)]
          exact h dg'
      | none =>
        rw [loadFiles_cons_new rest u d c hld halg]
        apply ih
        intro dg'
        by_cases hdg : dg' = d0
        · subst hdg
          right
          refine ⟨uri0, "i" ++ toString c, alGet_alInsert_self m dg' uri0,
            alGet_alInsert_self d dg' _, ?_⟩
          rw [alGet_append_of_none _ halg, alGet_cons, if_pos rfl]
        · rw [alGet_alInsert_ne m uri0 (Ne.symm hdg),
            alGet_alInsert_ne d _ (Ne.symm hdg)]
          rcases h dg' with ⟨hm, hd⟩ | ⟨uri, id, hm, hd, hu⟩
          · exact Or.inl ⟨hm, hd⟩
          · exact Or.inr ⟨uri, id, hm, hd, alGet_append_of_some _ hu⟩

/-- Two digits backed by the same reference string share one identifier,
and that identifier resolves in the theme's `id_to_uri` map. -/
theorem loadTheme_shares_id (files : List FileEntry) (d1 d2 : Char)
    (uri : String) (h1 : alGet (digitUriMap files) d1 = some uri)
    (h2 : alGet (digitUriMap files) d2 = some uri) :
    ∃ id, alGet (loadTheme files).digits d1 = some id ∧
          alGet (loadTheme files).digits d2 = some id ∧
          (alGet (loadTheme files).id_to_uri id).isSome := by
  have hinv := loadFiles_consistent files [] [] [] 0
    (by intro dg; exact Or.inl ⟨rfl, rfl⟩)
  rw [digitUriMap] at h1 h2
  rcases hinv d1 with ⟨hm1, -⟩ | ⟨uri1, id1, hm1, hd1, hu1⟩
  · rw [hm1] at h1
    exact Option.noConfusion h1
  · rcases hinv d2 with ⟨hm2, -⟩ | ⟨uri2, id2, hm2, hd2, hu2⟩
    · rw [hm2] at h2
      exact Option.noConfusion h2
    · rw [hm1] at h1
      rw [hm2] at h2
      have e1 : uri1 = uri := Option.some.inj h1
      have e2 : uri2 = uri := Option.some.inj h2
      subst e1
      subst e2
      rw [hu1] at hu2
      have e3 : id1 = id2 := Option.some.inj hu2
      subst e3
      refine ⟨id1, hd1, hd2, ?_⟩
      exact mem_alGet_isSome
        (List.mem_map.mpr ⟨_, alGet_mem hu1, rfl⟩)

/-! Counting glyph definitions. -/

theorem countP_defs_zero (l : List String) (m : List (String × String))
    (id : String) (hnot : id ∉ l) :
    (l.filterMap (fun j => (alGet m j).map (fun uri => SvgDef.mk j uri))).countP
      (fun df => df.id == id) = 0 := by
  induction l with
  | nil => rfl
  | cons j rest ih =>
    have hj : j ≠ id := fun he => hnot (he ▸ List.mem_cons_self _ _)
    have hrest : id ∉ rest := fun hm => hnot (List.mem_cons_of_mem _ hm)
    cases hm : alGet m j with
    | none =>
      rw [List.filterMap_cons_none (by rw [hm]; rfl)]
      exact ih hrest
    | some uri =>
      rw [List.filterMap_cons_some (by rw [hm]; rfl), List.countP_cons]
      have hfalse : ((SvgDef.mk j uri).id == id) = false := by
        simp [hj]
      rw [hfalse]
      simpa using ih hrest

theorem countP_defs_one (l : List String) (m : List (String × String))
    (id : String) (hnd : l.Nodup) (hmem : id ∈ l)
    (hres : (alGet m id).isSome) :
    (l.filterMap (fun j => (alGet m j).map (fun uri => SvgDef.mk j uri))).countP
      (fun df => df.id == id) = 1 := by
  induction l with
  | nil => simp at hmem
  | cons j rest ih =>
    rcases List.nodup_cons.mp hnd with ⟨hjnot, hndr⟩
    by_cases hj : j = id
    · subst hj
      obtain ⟨uri, huri⟩ := Option.isSome_iff_exists.mp hres
      rw [List.filterMap_cons_some (by rw [huri]; rfl), List.countP_cons]
      have htrue : ((SvgDef.mk j uri).id == j) = true := by simp
      rw [htrue, countP_defs_zero rest m j hjnot]
      simp
    · have hmem' : id ∈ rest := by
        rcases List.mem_cons.mp hmem with h | h
        · exact absurd h.symm hj
        · exact h
      cases hm : alGet m j with
      | none =>
        rw [List.filterMap_cons_none (by rw [hm]; rfl)]
        exact ih hndr hmem'
      | some uri =>
        rw [List.filterMap_cons_some (by rw [hm]; rfl), List.countP_cons]
        have hfalse : ((SvgDef.mk j uri).id == id) = false := by
          simp [hj]
        rw [hfalse]
        simpa using ih hndr hmem'

/-- A used identifier that resolves produces exactly one glyph definition. -/
theorem renderDefs_count_one (td : ThemeData) (count : Int) (id : String)
    (hused : id ∈ (renderUses td count).map SvgUse.id)
    (hres : (alGet td.id_to_uri id).isSome) :
    (renderDefs td count).countP (fun df => df.id == id) = 1 := by
  unfold renderDefs usedIds
  exact countP_defs_one _ _ id (List.nodup_dedup _)
    (List.mem_dedup.mpr hused) hres

/-- Claim C3: two glyph files of one theme whose embeddable reference
strings are exactly equal are assigned one shared identifier: both digits
map to the same `id`, and a rendering whose padded text shows `d1` at
position `i1` and `d2` at a different position `i2` contains a placement
for each position, at distinct offsets, while its definitions block holds
exactly one definition with that identifier. -/
theorem theme_dedup_shared_definition (files : List FileEntry) (d1 d2 : Char)
    (uri : String) (count : Int) (i1 i2 : Nat)
    (h1 : alGet (digitUriMap files) d1 = some uri)
    (h2 : alGet (digitUriMap files) d2 = some uri)
    (hi1 : i1 < (padChars count).length) (hi2 : i2 < (padChars count).length)
    (hc1 : (padChars count).get ⟨i1, hi1⟩ = d1)
    (hc2 : (padChars count).get ⟨i2, hi2⟩ = d2)
    (hne : i1 ≠ i2) :
    ∃ id,
      alGet (loadTheme files).digits d1 = some id ∧
      alGet (loadTheme files).digits d2 = some id ∧
      (⟨id, i1 * IMG_WIDTH, 0, IMG_WIDTH, IMG_HEIGHT⟩ : SvgUse) ∈
        (render_svg (loadTheme files) count).uses ∧
      (⟨id, i2 * IMG_WIDTH, 0, IMG_WIDTH, IMG_HEIGHT⟩ : SvgUse) ∈
        (render_svg (loadTheme files) count).uses ∧
      i1 * IMG_WIDTH ≠ i2 * IMG_WIDTH ∧
      (render_svg (loadTheme files) count).defs.countP
        (fun df => df.id == id) = 1 := by
  obtain ⟨id, hd1, hd2, hres⟩ := loadTheme_shares_id files d1 d2 uri h1 h2
  have hu1 : (⟨id, i1 * IMG_WIDTH, 0, IMG_WIDTH, IMG_HEIGHT⟩ : SvgUse) ∈
      renderUses (loadTheme files) count :=
    renderUses_mem_of_pos _ count i1 hi1 id (by rw [hc1]; exact hd1)
  have hu2 : (⟨id, i2 * IMG_WIDTH, 0, IMG_WIDTH, IMG_HEIGHT⟩ : SvgUse) ∈
      renderUses (loadTheme files) count :=
    renderUses_mem_of_pos _ count i2 hi2 id (by rw [hc2]; exact hd2)
  refine ⟨id, hd1, hd2, hu1, hu2, ?_, ?_⟩
  · intro he
    exact hne (by
      rw [show IMG_WIDTH = 45 from rfl] at he
      omega)
  · exact renderDefs_count_one _ count id
      (List.mem_map.mpr ⟨_, hu1, rfl⟩) hres

/-- Witness for C3: two files with identical bytes back the digits `'0'` and
`'1'`; rendering the count 10 (padded text `"0000010"`) places both digits
and defines their shared glyph once. -/
theorem theme_dedup_shared_definition_witness :
    ∃ id,
      alGet (loadTheme [exFile0, exFile1]).digits '0' = some id ∧
      alGet (loadTheme [exFile0, exFile1]).digits '1' = some id ∧
      (⟨id, 0 * IMG_WIDTH, 0, IMG_WIDTH, IMG_HEIGHT⟩ : SvgUse) ∈
        (render_svg (loadTheme [exFile0, exFile1]) 10).uses ∧
      (⟨id, 5 * IMG_WIDTH, 0, IMG_WIDTH, IMG_HEIGHT⟩ : SvgUse) ∈
        (render_svg (loadTheme [exFile0, exFile1]) 10).uses ∧
      0 * IMG_WIDTH ≠ 5 * IMG_WIDTH ∧
      (render_svg (loadTheme [exFile0, exFile1]) 10).defs.countP
        (fun df => df.id == id) = 1 :=
  theme_dedup_shared_definition [exFile0, exFile1] '0' '1'
    "data:image/png;base64,Bw==" 10 0 5 rfl rfl (by decide) (by decide)
    rfl rfl (by decide)

end Yamcrs
